import Mathlib

/-!
Shallow embedding of `augur/io.py` (`read_sequences`, `write_sequences`).

The module is glue code composing two external collaborators:
* a sequence-format codec (BioPython's `Bio.SeqIO`), and
* a compression-transparent stream opener (`xopen`).

The two functions themselves are embedded directly from the source.  The
external collaborators are not part of the repository, so they are modelled
from the spec (section 6 "EXTERNAL INTERFACES" and section 8's concrete FASTA
scenarios): the codec parses/serializes records, the opener yields a scoped
stream and fails on missing/unreadable/unwritable paths.  File contents are
modelled at the line level (a file is a list of lines, each line a list of
characters), which is the granularity the spec's FASTA scenarios use;
compression is transparent by assumption, exactly as the opener's contract
states.

State is passed explicitly: a `World` holds the file store plus the sets of
unreadable and unwritable paths, and every run returns the `Except` result,
the final world where it changes, and the list of stream-acquisition events
performed.  Python's `with` statement is embedded by emitting a matching
`close` event on every exit of the guarded block (normal exit, exception,
and generator close).  Python generator semantics (the body of
`read_sequences` runs only when the returned stream is iterated) are
embedded by keeping the call itself a pure constructor and putting all
effects in the run functions.
-/

/-- One line of a (decompressed) text file, as a list of characters. -/
abbrev Line := List Char

/-- A biological sequence record: an identifier and a sequence of symbols
(`Bio.SeqRecord.SeqRecord`; metadata beyond the id is opaque to the module
and is not inspected here). -/
structure SeqRecord where
  id : Line
  seq : Line
deriving Repr, DecidableEq

/-- Errors surfaced by the storage layer and the codec.  Each constructor
carries enough payload that two distinct underlying errors stay distinct, so
"propagated unchanged" is expressible as equality of errors. -/
inductive IOErr where
  | fileNotFound (path : String)
  | permissionDenied (path : String)
  | formatError (format : String) (msg : String)
  | typeError (msg : String)
  | valueError (msg : String)
deriving Repr, DecidableEq

/-- Stream-acquisition events.  Each `xopen` in read mode emits `openRead`,
each `xopen` in write mode emits `openWrite`, and leaving the corresponding
`with` block emits `close`. -/
inductive Event where
  | openRead (path : String)
  | openWrite (path : String)
  | close (path : String)
deriving Repr, DecidableEq

/-- The explicit world state: the file store (path to list of lines) plus
which paths are unreadable / unwritable (modelling permission errors). -/
structure World where
  files : List (String × List Line)
  unreadable : List String
  unwritable : List String
deriving Repr, DecidableEq

/-- Look a path up in the file store. -/
def World.lookup (w : World) (p : String) : Option (List Line) :=
  (w.files.find? (fun kv => kv.1 = p)).map (·.2)

/-- Replace (or create) the content stored at a path. -/
def World.store (w : World) (p : String) (content : List Line) : World :=
  { w with files := (p, content) :: w.files.filter (fun kv => ¬ kv.1 = p) }

/-- Modelled from the spec: `xopen(path, "r")` — the compression-transparent
opener in read mode.  Fails with a not-found error if the path does not
exist and a permission error if it is unreadable; otherwise yields the
decompressed content. -/
def xopenRead (w : World) (p : String) : Except IOErr (List Line) :=
  if p ∈ w.unreadable then .error (.permissionDenied p)
  else
    match w.lookup p with
    | none => .error (.fileNotFound p)
    | some content => .ok content

/-- Modelled from the spec: `xopen(path, "wt")` — the opener in write mode.
Fails with a permission error on an unwritable destination; otherwise the
destination is truncated at open (mode `"wt"` truncates) and the new world is
returned. -/
def xopenWrite (w : World) (p : String) : Except IOErr World :=
  if p ∈ w.unwritable then .error (.permissionDenied p)
  else .ok (w.store p [])

/-- Is this line a FASTA title line (does it start with `>`)? -/
def isTitle : Line → Bool
  | '>' :: _ => true
  | _ => false

/-- Modelled from the spec: FASTA serialization of one record — a title line
starting with `>` followed by the sequence line. -/
def serializeRecord (r : SeqRecord) : List Line :=
  ['>' :: r.id, r.seq]

/-- Modelled from the spec: FASTA serialization of a collection of records,
in iteration order. -/
def serializeFasta (rs : List SeqRecord) : List Line :=
  rs.flatMap serializeRecord

/-- Accumulating core of the FASTA parser: `curId`/`curSeq` hold the record
opened by the last title line; a new title line closes it, any other line
extends its sequence. -/
def parseFastaAux : List Line → Line → Line → List SeqRecord
  | [], curId, curSeq => [{ id := curId, seq := curSeq }]
  | line :: rest, curId, curSeq =>
    if isTitle line then { id := curId, seq := curSeq } :: parseFastaAux rest line.tail []
    else parseFastaAux rest curId (curSeq ++ line)

/-- Modelled from the spec: the FASTA parser of the codec.  A title line
(starting with `>`) opens a record whose sequence is the following non-title
lines; non-empty content that does not start with a title line is a format
error. -/
def parseFasta : List Line → Except IOErr (List SeqRecord)
  | [] => .ok []
  | line :: rest =>
    if isTitle line then .ok (parseFastaAux rest line.tail [])
    else .error (.formatError "fasta" "records in FASTA files should start with a > character")

/-- Modelled from the spec: `Bio.SeqIO.parse(handle, format)` — dispatch on
the format tag; an unrecognized tag is a caller-visible error from the
codec. -/
def bioParse (content : List Line) (format : String) : Except IOErr (List SeqRecord) :=
  if format = "fasta" then parseFasta content
  else .error (.valueError ("Unknown format " ++ format))

/-- The possible shapes of the `sequences` argument of `write_sequences` in a
dynamically typed caller: a collection of records, a bare single record, a
plain string, or a non-iterable object. -/
inductive SeqInput where
  | records (rs : List SeqRecord)
  | record (r : SeqRecord)
  | str (s : Line)
  | nonIterable
deriving Repr, DecidableEq

/-- `isinstance(sequences, Bio.SeqRecord.SeqRecord)`: true exactly on a bare
single record. -/
def isSeqRecord : SeqInput → Bool
  | .record _ => true
  | _ => false

/-- Modelled from the spec: `Bio.SeqIO.write(sequences, handle, format)` —
serializes the records and returns the serialized lines with the count.
A plain string or a non-iterable object fails inside the serializer (each
character of a string is not a record; a non-iterable cannot be iterated);
an unrecognized format tag is a codec error. -/
def bioWrite (sequences : SeqInput) (format : String) : Except IOErr (List Line × Nat) :=
  if format = "fasta" then
    match sequences with
    | .records rs => .ok (serializeFasta rs, rs.length)
    | .record r => .ok (serializeRecord r, 1)
    | .str _ => .error (.valueError "sequence objects expected, got a string")
    | .nonIterable => .error (.typeError "sequences argument is not iterable")
  else .error (.valueError ("Unknown format " ++ format))

/-- The `paths` argument of `read_sequences`: a single path-like value or an
ordered collection of path-like values. -/
inductive PathsArg where
  | single (p : String)
  | many (ps : List String)
deriving Repr, DecidableEq

/-- `Path(paths)` on a path-like value: the cast yields a reference to the
same location, so on the abstract path values it is the identity.  On a
collection the cast raises `TypeError` and the source keeps the collection
as-is; that branch is taken in `normalizePaths` below. -/
def pathCast (p : String) : String := p

/-- The `try: paths = [Path(paths)] except TypeError: pass` normalization at
the top of `read_sequences`: a single path-like value becomes a one-element
list, a collection is kept exactly as given. -/
def normalizePaths : PathsArg → List String
  | .single p => [pathCast p]
  | .many ps => ps

/-- One iteration of the `for path in paths` loop body of `read_sequences`:
open the path with the compression-transparent opener, parse the handle with
the codec. -/
def readOne (w : World) (p : String) (format : String) : Except IOErr (List SeqRecord) :=
  match xopenRead w p with
  | .error e => .error e
  | .ok content => bioParse content format

/-- The body of the `for path in paths` loop of `read_sequences`, run to
exhaustion: for each path a stream is acquired (`openRead`), every record is
parsed and yielded, and the `with` block releases the stream (`close`) both
on normal completion and when an exception propagates.  An `xopen` failure
raises before any handle exists, so it contributes no event.  Returns the
yielded records (or the first error) together with the event trace. -/
def readPathsRun : List String → String → World → Except IOErr (List SeqRecord) × List Event
  | [], _, _ => (.ok [], [])
  | p :: ps, format, w =>
    match xopenRead w p with
    | .error e => (.error e, [])
    | .ok content =>
      match bioParse content format with
      | .error e => (.error e, [.openRead p, .close p])
      | .ok recs =>
        match readPathsRun ps format w with
        | (.error e, evs) => (.error e, [.openRead p, .close p] ++ evs)
        | (.ok rest, evs) => (.ok (recs ++ rest), [.openRead p, .close p] ++ evs)

/-- The generator object returned by calling `read_sequences(paths, format)`:
a suspended computation holding the arguments.  Calling a Python generator
function runs none of its body, so constructing this value is pure — no
world access, no events, no possible error. -/
structure SeqGen where
  paths : PathsArg
  format : String
deriving Repr, DecidableEq

/-- `read_sequences(paths, format)`: returns the suspended generator. -/
def read_sequences (paths : PathsArg) (format : String) : SeqGen :=
  { paths := paths, format := format }

/-- Running the generator to exhaustion (iterating the stream until done or
until an error propagates). -/
def SeqGen.run (g : SeqGen) (w : World) : Except IOErr (List SeqRecord) × List Event :=
  readPathsRun (normalizePaths g.paths) g.format w

/-- Iterating the generator until the first record is produced (the first
`next()` call): the body runs up to its first `yield`, so at suspension the
current path's handle is still open.  Returns `some` record, `none` when the
stream is exhausted without a record, or the first error. -/
def readPathsFirst : List String → String → World → Except IOErr (Option SeqRecord) × List Event
  | [], _, _ => (.ok none, [])
  | p :: ps, format, w =>
    match xopenRead w p with
    | .error e => (.error e, [])
    | .ok content =>
      match bioParse content format with
      | .error e => (.error e, [.openRead p, .close p])
      | .ok [] =>
        match readPathsFirst ps format w with
        | (res, evs) => (res, [.openRead p, .close p] ++ evs)
      | .ok (r :: _) => (.ok (some r), [.openRead p])

/-- The first `next()` on the generator. -/
def SeqGen.firstStep (g : SeqGen) (w : World) : Except IOErr (Option SeqRecord) × List Event :=
  readPathsFirst (normalizePaths g.paths) g.format w

/-- The event trace of a run in which the caller consumes at most `budget`
records and then abandons the stream (closing the generator).  Closing a
suspended generator raises `GeneratorExit` at the suspended `yield`, and the
`with` block then releases the open handle; a generator abandoned before the
next stream is acquired produces no further events. -/
def readPathsAbortTrace : List String → String → World → Nat → List Event
  | [], _, _, _ => []
  | p :: ps, format, w, budget =>
    if budget = 0 then []
    else
      match xopenRead w p with
      | .error _ => []
      | .ok content =>
        match bioParse content format with
        | .error _ => [.openRead p, .close p]
        | .ok recs =>
          if recs.length ≤ budget then
            [.openRead p, .close p] ++ readPathsAbortTrace ps format w (budget - recs.length)
          else
            [.openRead p, .close p]

/-- `write_sequences(sequences, path, format)` from the source: the eager
`isinstance` guard rejects a bare record before any stream is acquired;
otherwise the destination stream is opened (truncating), the codec
serializes every record into it, and the `with` block releases the stream.
Returns the count (or the error), the final world, and the event trace. -/
def write_sequences (sequences : SeqInput) (path : String) (format : String)
    (w : World) : Except IOErr Nat × World × List Event :=
  if isSeqRecord sequences then
    (.error (.typeError "Input sequences must be an iterable of BioPython SeqRecord objects; individual SeqRecord objects are not supported."), w, [])
  else
    match xopenWrite w path with
    | .error e => (.error e, w, [])
    | .ok w' =>
      match bioWrite sequences format with
      | .error e => (.error e, w', [.openWrite path, .close path])
      | .ok (content, n) => (.ok n, w'.store path content, [.openWrite path, .close path])

/-- A trace is balanced when it is a concatenation of acquire/release pairs:
every acquired handle is released immediately at block exit, and no release
occurs without a matching acquisition. -/
inductive BalancedTrace : List Event → Prop
  | nil : BalancedTrace []
  | read (p : String) (evs : List Event) : BalancedTrace evs →
      BalancedTrace (.openRead p :: .close p :: evs)
  | write (p : String) (evs : List Event) : BalancedTrace evs →
      BalancedTrace (.openWrite p :: .close p :: evs)

/-- The paths on which a trace acquires a read stream, in acquisition
order. -/
def openedPaths (evs : List Event) : List String :=
  evs.filterMap (fun e => match e with | .openRead p => some p | _ => none)

/-- The records a path yields when it reads and parses successfully (used to
state concatenation semantics). -/
def recsOf (w : World) (format : String) (p : String) : List SeqRecord :=
  match readOne w p format with
  | .ok recs => recs
  | .error _ => []

theorem parseFastaAux_serializeFasta (rs : List SeqRecord) :
    ∀ curId curSeq, (∀ r ∈ rs, isTitle r.seq = false) →
      parseFastaAux (serializeFasta rs) curId curSeq = ⟨curId, curSeq⟩ :: rs := by
  induction rs with
  | nil => intro curId curSeq _; rfl
  | cons r rs ih =>
    intro curId curSeq h
    have hseq : isTitle r.seq = false := h r (by simp)
    have hstep : serializeFasta (r :: rs) = ('>' :: r.id) :: r.seq :: serializeFasta rs := by
      simp [serializeFasta, serializeRecord]
    rw [hstep, parseFastaAux]
    have htitle : isTitle ('>' :: r.id) = true := rfl
    rw [if_pos htitle]
    rw [parseFastaAux, if_neg (by rw [hseq]; exact Bool.false_ne_true)]
    rw [List.nil_append, List.tail_cons]
    rw [ih r.id r.seq (fun q hq => h q (by simp [hq]))]

theorem parseFasta_serializeFasta (rs : List SeqRecord)
    (h : ∀ r ∈ rs, isTitle r.seq = false) :
    parseFasta (serializeFasta rs) = .ok rs := by
  match rs with
  | [] => rfl
  | r :: rs =>
    have hseq : isTitle r.seq = false := h r (by simp)
    have hstep : serializeFasta (r :: rs) = ('>' :: r.id) :: r.seq :: serializeFasta rs := by
      simp [serializeFasta, serializeRecord]
    rw [hstep, parseFasta]
    have htitle : isTitle ('>' :: r.id) = true := rfl
    rw [if_pos htitle]
    rw [parseFastaAux, if_neg (by rw [hseq]; exact Bool.false_ne_true)]
    rw [List.nil_append, List.tail_cons]
    rw [parseFastaAux_serializeFasta rs r.id r.seq (fun q hq => h q (by simp [hq]))]

theorem countP_isTitle_serializeFasta (rs : List SeqRecord)
    (h : ∀ r ∈ rs, isTitle r.seq = false) :
    (serializeFasta rs).countP isTitle = rs.length := by
  induction rs with
  | nil => rfl
  | cons r rs ih =>
    have hseq : isTitle r.seq = false := h r (by simp)
    have hstep : serializeFasta (r :: rs) = ('>' :: r.id) :: r.seq :: serializeFasta rs := by
      simp [serializeFasta, serializeRecord]
    rw [hstep, List.countP_cons, List.countP_cons,
      ih (fun q hq => h q (by simp [hq])), hseq]
    rfl

theorem World.lookup_store (w : World) (p : String) (c : List Line) :
    (w.store p c).lookup p = some c := by
  simp [World.store, World.lookup, List.find?]

theorem World.store_unreadable (w : World) (p : String) (c : List Line) :
    (w.store p c).unreadable = w.unreadable := rfl

theorem World.store_unwritable (w : World) (p : String) (c : List Line) :
    (w.store p c).unwritable = w.unwritable := rfl

/-- Claim C1: for every single Sequence Record passed as `sequences`,
`write_sequences` raises the eager `TypeError` before any stream is opened:
the result is exactly that error, the world is unchanged (no file created or
truncated), and the event trace is empty (no stream was ever acquired). -/
theorem write_sequences_single_record_eager_type_error
    (r : SeqRecord) (path format : String) (w : World) :
    write_sequences (.record r) path format w =
      (.error (.typeError "Input sequences must be an iterable of BioPython SeqRecord objects; individual SeqRecord objects are not supported."), w, []) := rfl

theorem write_sequences_records_ok (rs : List SeqRecord) (path : String) (w : World)
    (h : path ∉ w.unwritable) :
    write_sequences (.records rs) path "fasta" w =
      (.ok rs.length, (w.store path []).store path (serializeFasta rs),
        [.openWrite path, .close path]) := by
  simp [write_sequences, isSeqRecord, xopenWrite, h, bioWrite]

/-- Claim C4: round trip — writing any collection of well-formed records
(sequence lines are not title lines) to a writable, readable path with the
`"fasta"` format tag and reading the path back under the same tag yields
exactly the written records, hence exactly N records for N written. -/
theorem write_then_read_roundtrip (rs : List SeqRecord) (path : String) (w : World)
    (h1 : path ∉ w.unwritable) (h2 : path ∉ w.unreadable)
    (h3 : ∀ r ∈ rs, isTitle r.seq = false) :
    ((read_sequences (.single path) "fasta").run
        (write_sequences (.records rs) path "fasta" w).2.1).1 = .ok rs := by
  rw [write_sequences_records_ok rs path w h1]
  have hw : ((w.store path []).store path (serializeFasta rs)).unreadable = w.unreadable := rfl
  have hx : xopenRead ((w.store path []).store path (serializeFasta rs)) path =
      .ok (serializeFasta rs) := by
    simp [xopenRead, hw, h2, World.lookup_store]
  have hp : bioParse (serializeFasta rs) "fasta" = .ok rs := by
    simp [bioParse, parseFasta_serializeFasta rs h3]
  simp [SeqGen.run, read_sequences, normalizePaths, pathCast, readPathsRun, hx, hp]

/-- Witness for C4 at a concrete input: three records written to
`out.fasta` in an empty world read back as exactly those three records. -/
theorem write_then_read_roundtrip_witness :
    "out.fasta" ∉ (⟨[], [], []⟩ : World).unwritable ∧
    "out.fasta" ∉ (⟨[], [], []⟩ : World).unreadable ∧
    (∀ r ∈ [SeqRecord.mk ['S', '1'] ['A', 'C'], SeqRecord.mk ['S', '2'] ['G'],
        SeqRecord.mk ['S', '3'] []], isTitle r.seq = false) ∧
    ((read_sequences (.single "out.fasta") "fasta").run
        (write_sequences
          (.records [SeqRecord.mk ['S', '1'] ['A', 'C'], SeqRecord.mk ['S', '2'] ['G'],
            SeqRecord.mk ['S', '3'] []])
          "out.fasta" "fasta" ⟨[], [], []⟩).2.1).1 =
      .ok [SeqRecord.mk ['S', '1'] ['A', 'C'], SeqRecord.mk ['S', '2'] ['G'],
        SeqRecord.mk ['S', '3'] []] :=
  ⟨by decide, by decide, by decide,
    write_then_read_roundtrip _ "out.fasta" ⟨[], [], []⟩ (by decide) (by decide) (by decide)⟩

/-- Claim C5: for every collection of records that serializes successfully
under the `"fasta"` tag to a writable path, `write_sequences` returns the
count of records serialized, equal to the length of the input collection;
moreover the destination then holds exactly that many title (`>`) lines. -/
theorem write_sequences_returns_count (rs : List SeqRecord) (path : String) (w : World)
    (h1 : path ∉ w.unwritable) (h2 : ∀ r ∈ rs, isTitle r.seq = false) :
    (write_sequences (.records rs) path "fasta" w).1 = .ok rs.length ∧
    ((write_sequences (.records rs) path "fasta" w).2.1.lookup path).map
        (List.countP isTitle) = some rs.length := by
  rw [write_sequences_records_ok rs path w h1]
  refine ⟨rfl, ?_⟩
  simp [World.lookup_store, countP_isTitle_serializeFasta rs h2]

/-- Witness for C5 at a concrete input: writing three records to
`out.fasta.gz` returns 3 and the stored file has exactly 3 title lines. -/
theorem write_sequences_returns_count_witness :
    "out.fasta.gz" ∉ (⟨[], [], []⟩ : World).unwritable ∧
    (∀ r ∈ [SeqRecord.mk ['r', '1'] ['A'], SeqRecord.mk ['r', '2'] ['T'],
        SeqRecord.mk ['r', '3'] ['G']], isTitle r.seq = false) ∧
    (write_sequences
        (.records [SeqRecord.mk ['r', '1'] ['A'], SeqRecord.mk ['r', '2'] ['T'],
          SeqRecord.mk ['r', '3'] ['G']])
        "out.fasta.gz" "fasta" ⟨[], [], []⟩).1 = .ok 3 ∧
    ((write_sequences
        (.records [SeqRecord.mk ['r', '1'] ['A'], SeqRecord.mk ['r', '2'] ['T'],
          SeqRecord.mk ['r', '3'] ['G']])
        "out.fasta.gz" "fasta" ⟨[], [], []⟩).2.1.lookup "out.fasta.gz").map
        (List.countP isTitle) = some 3 :=
  ⟨by decide, by decide,
    (write_sequences_returns_count _ "out.fasta.gz" ⟨[], [], []⟩ (by decide) (by decide)).1,
    (write_sequences_returns_count _ "out.fasta.gz" ⟨[], [], []⟩ (by decide) (by decide)).2⟩

/-- Claim C6: each call to `write_sequences` performs exactly one
open/write/close cycle and truncates the destination: the resulting content
at the path is exactly the serialization of the given records (independent
of whatever the world previously stored there), a second call to the same
path leaves the second call's serialization only (no append), and the event
trace of a call is exactly one open followed by its close. -/
theorem write_sequences_truncates (rs₁ rs₂ : List SeqRecord) (path : String) (w : World)
    (h : path ∉ w.unwritable) :
    (write_sequences (.records rs₂) path "fasta" w).2.1.lookup path =
        some (serializeFasta rs₂) ∧
    (write_sequences (.records rs₂) path "fasta"
        (write_sequences (.records rs₁) path "fasta" w).2.1).2.1.lookup path =
      some (serializeFasta rs₂) ∧
    (write_sequences (.records rs₂) path "fasta" w).2.2 =
      [.openWrite path, .close path] := by
  have h' : path ∉ ((w.store path []).store path (serializeFasta rs₁)).unwritable := by
    rw [World.store_unwritable, World.store_unwritable]
    exact h
  refine ⟨?_, ?_, ?_⟩
  · rw [write_sequences_records_ok rs₂ path w h]
    simp [World.lookup_store]
  · rw [write_sequences_records_ok rs₁ path w h]
    rw [write_sequences_records_ok rs₂ path _ h']
    simp [World.lookup_store]
  · rw [write_sequences_records_ok rs₂ path w h]

/-- Witness for C6 at a concrete input: overwriting a two-record file with a
one-record collection leaves exactly the one-record serialization, and the
trace is a single open/close pair. -/
theorem write_sequences_truncates_witness :
    "f.fasta" ∉ (⟨[], [], []⟩ : World).unwritable ∧
    (write_sequences (.records [SeqRecord.mk ['b'] ['T']]) "f.fasta" "fasta"
        (write_sequences
          (.records [SeqRecord.mk ['a', '1'] ['A'], SeqRecord.mk ['a', '2'] ['C']])
          "f.fasta" "fasta" ⟨[], [], []⟩).2.1).2.1.lookup "f.fasta" =
      some (serializeFasta [SeqRecord.mk ['b'] ['T']]) ∧
    (write_sequences (.records [SeqRecord.mk ['b'] ['T']]) "f.fasta" "fasta"
        ⟨[], [], []⟩).2.2 = [.openWrite "f.fasta", .close "f.fasta"] :=
  ⟨by decide,
    (write_sequences_truncates [SeqRecord.mk ['a', '1'] ['A'], SeqRecord.mk ['a', '2'] ['C']]
      [SeqRecord.mk ['b'] ['T']] "f.fasta" ⟨[], [], []⟩ (by decide)).2.1,
    (write_sequences_truncates [SeqRecord.mk ['a', '1'] ['A'], SeqRecord.mk ['a', '2'] ['C']]
      [SeqRecord.mk ['b'] ['T']] "f.fasta" ⟨[], [], []⟩ (by decide)).2.2⟩

theorem readPathsRun_all_ok (format : String) (w : World) :
    ∀ ps : List String, (∀ p ∈ ps, (readOne w p format).isOk = true) →
      readPathsRun ps format w =
        (.ok (ps.flatMap (recsOf w format)),
          ps.flatMap (fun p => [Event.openRead p, Event.close p])) := by
  intro ps
  induction ps with
  | nil => intro _; rfl
  | cons p ps ih =>
    intro h
    have hp := h p (by simp)
    cases hx : xopenRead w p with
    | error e => simp [readOne, hx, Except.isOk, Except.toBool] at hp
    | ok content =>
      cases hb : bioParse content format with
      | error e => simp [readOne, hx, hb, Except.isOk, Except.toBool] at hp
      | ok recs =>
        have hro : readOne w p format = .ok recs := by simp [readOne, hx, hb]
        have h' : ∀ q ∈ ps, (readOne w q format).isOk = true :=
          fun q hq => h q (by simp [hq])
        have hrec : recsOf w format p = recs := by simp [recsOf, hro]
        simp [readPathsRun, hx, hb, ih h', hrec]

/-- Claim C2: `read_sequences` on a single path-like value behaves exactly
as on the one-element collection holding that value, and a collection of
paths is processed in its given order with no reordering and no
deduplication: when every path reads and parses, the read streams are
acquired exactly at the given paths, in the given order, duplicates
included. -/
theorem read_sequences_single_path_normalization :
    (∀ (p : String) (format : String) (w : World),
      (read_sequences (.single p) format).run w =
        (read_sequences (.many [p]) format).run w) ∧
    (∀ (ps : List String) (format : String) (w : World),
      (∀ p ∈ ps, (readOne w p format).isOk = true) →
      openedPaths ((read_sequences (.many ps) format).run w).2 = ps) := by
  constructor
  · intro p format w
    rfl
  · intro ps format w h
    show openedPaths (readPathsRun ps format w).2 = ps
    rw [readPathsRun_all_ok format w ps h]
    induction ps with
    | nil => rfl
    | cons p ps ih =>
      simp only [List.flatMap_cons, openedPaths, List.filterMap_append] at *
      rw [List.filterMap_cons, List.filterMap_cons, List.filterMap_nil]
      simp only []
      rw [ih (fun q hq => h q (by simp [hq]))]
      rfl

/-- Witness for C2 at a concrete input: a duplicated path list is processed
as given (the same path acquired twice, no deduplication), and the
single-path call equals the one-element-list call. -/
theorem read_sequences_single_path_normalization_witness :
    (read_sequences (.single "a.fa") "fasta").run ⟨[("a.fa", [['>', 'x'], ['A']])], [], []⟩ =
      (read_sequences (.many ["a.fa"]) "fasta").run ⟨[("a.fa", [['>', 'x'], ['A']])], [], []⟩ ∧
    (∀ p ∈ ["a.fa", "a.fa"],
      (readOne ⟨[("a.fa", [['>', 'x'], ['A']])], [], []⟩ p "fasta").isOk = true) ∧
    openedPaths ((read_sequences (.many ["a.fa", "a.fa"]) "fasta").run
        ⟨[("a.fa", [['>', 'x'], ['A']])], [], []⟩).2 = ["a.fa", "a.fa"] :=
  ⟨read_sequences_single_path_normalization.1 "a.fa" "fasta" _, by decide,
    read_sequences_single_path_normalization.2 ["a.fa", "a.fa"] "fasta"
      ⟨[("a.fa", [['>', 'x'], ['A']])], [], []⟩ (by decide)⟩

/-- Claim C3: when every path in the list reads and parses, running the
stream yields exactly the concatenation of the per-path record lists (all
records of a path, in file order, before any record of the next path), and
the total count is the sum of the per-path counts. -/
theorem read_sequences_concatenation (ps : List String) (format : String) (w : World)
    (h : ∀ p ∈ ps, (readOne w p format).isOk = true) :
    ((read_sequences (.many ps) format).run w).1 = .ok (ps.flatMap (recsOf w format)) ∧
    (ps.flatMap (recsOf w format)).length =
      (ps.map (fun p => (recsOf w format p).length)).sum := by
  constructor
  · show (readPathsRun ps format w).1 = _
    rw [readPathsRun_all_ok format w ps h]
  · induction ps with
    | nil => rfl
    | cons p ps ih =>
      simp only [List.flatMap_cons, List.map_cons, List.sum_cons, List.length_append]
      rw [ih (fun q hq => h q (by simp [hq]))]

/-- Witness for C3 at a concrete input: two files holding two records and
one record yield the three records concatenated in path order. -/
theorem read_sequences_concatenation_witness :
    (∀ p ∈ ["a.fa", "b.fa"],
      (readOne ⟨[("a.fa", [['>', '1'], ['A'], ['>', '2'], ['C']]),
        ("b.fa", [['>', '3'], ['T']])], [], []⟩ p "fasta").isOk = true) ∧
    ((read_sequences (.many ["a.fa", "b.fa"]) "fasta").run
        ⟨[("a.fa", [['>', '1'], ['A'], ['>', '2'], ['C']]),
          ("b.fa", [['>', '3'], ['T']])], [], []⟩).1 =
      .ok (["a.fa", "b.fa"].flatMap
        (recsOf ⟨[("a.fa", [['>', '1'], ['A'], ['>', '2'], ['C']]),
          ("b.fa", [['>', '3'], ['T']])], [], []⟩ "fasta")) ∧
    (["a.fa", "b.fa"].flatMap
        (recsOf ⟨[("a.fa", [['>', '1'], ['A'], ['>', '2'], ['C']]),
          ("b.fa", [['>', '3'], ['T']])], [], []⟩ "fasta")).length = 3 :=
  ⟨by decide,
    (read_sequences_concatenation ["a.fa", "b.fa"] "fasta" _ (by decide)).1,
    by decide⟩

theorem balancedTrace_readPathsRun (format : String) (w : World) :
    ∀ ps : List String, BalancedTrace (readPathsRun ps format w).2 := by
  intro ps
  induction ps with
  | nil => exact .nil
  | cons p ps ih =>
    cases hx : xopenRead w p with
    | error e =>
      simp only [readPathsRun, hx]
      exact .nil
    | ok content =>
      cases hb : bioParse content format with
      | error e =>
        simp only [readPathsRun, hx, hb]
        exact .read p [] .nil
      | ok recs =>
        have ih' := ih
        cases hr : readPathsRun ps format w with
        | mk res evs =>
          rw [hr] at ih'
          cases res with
          | error e =>
            simp only [readPathsRun, hx, hb, hr, List.cons_append, List.nil_append]
            exact .read p evs ih'
          | ok rest =>
            simp only [readPathsRun, hx, hb, hr, List.cons_append, List.nil_append]
            exact .read p evs ih'

theorem balancedTrace_readPathsAbortTrace (format : String) (w : World) :
    ∀ (ps : List String) (budget : Nat),
      BalancedTrace (readPathsAbortTrace ps format w budget) := by
  intro ps
  induction ps with
  | nil => intro budget; exact .nil
  | cons p ps ih =>
    intro budget
    by_cases hz : budget = 0
    · simp only [readPathsAbortTrace, hz, if_pos rfl]
      exact .nil
    · cases hx : xopenRead w p with
      | error e =>
        simp only [readPathsAbortTrace, hz, if_neg hz, hx]
        exact .nil
      | ok content =>
        cases hb : bioParse content format with
        | error e =>
          simp only [readPathsAbortTrace, hz, if_neg hz, hx, hb]
          exact .read p [] .nil
        | ok recs =>
          by_cases hl : recs.length ≤ budget
          · simp only [readPathsAbortTrace, if_neg hz, hx, hb, if_pos hl,
              List.cons_append, List.nil_append]
            exact .read p _ (ih (budget - recs.length))
          · simp only [readPathsAbortTrace, if_neg hz, hx, hb, if_neg hl]
            exact .read p [] .nil

/-- Claim C7: every acquired file handle is released on every exit path.
The event trace of a full run of the read stream (normal exhaustion or error
propagation), of a run the caller abandons after consuming any number of
records, and of any `write_sequences` call (success, open failure, or
serialize failure) is a concatenation of matched acquire/release pairs. -/
theorem handles_released_on_every_exit_path :
    (∀ (paths : PathsArg) (format : String) (w : World),
      BalancedTrace ((read_sequences paths format).run w).2) ∧
    (∀ (paths : PathsArg) (format : String) (w : World) (budget : Nat),
      BalancedTrace (readPathsAbortTrace (normalizePaths paths) format w budget)) ∧
    (∀ (s : SeqInput) (path format : String) (w : World),
      BalancedTrace (write_sequences s path format w).2.2) := by
  refine ⟨?_, ?_, ?_⟩
  · intro paths format w
    exact balancedTrace_readPathsRun format w (normalizePaths paths)
  · intro paths format w budget
    exact balancedTrace_readPathsAbortTrace format w (normalizePaths paths) budget
  · intro s path format w
    by_cases hs : isSeqRecord s = true
    · simp only [write_sequences, if_pos hs]
      exact .nil
    · cases hx : xopenWrite w path with
      | error e =>
        simp only [write_sequences, if_neg hs, hx]
        exact .nil
      | ok w' =>
        cases hb : bioWrite s format with
        | error e =>
          simp only [write_sequences, if_neg hs, hx, hb]
          exact .write path [] .nil
        | ok cn =>
          simp only [write_sequences, if_neg hs, hx, hb]
          exact .write path [] .nil

theorem readPathsRun_append_error (format : String) (w : World) :
    ∀ (ps : List String) (p : String) (e : IOErr),
      (∀ q ∈ ps, (readOne w q format).isOk = true) →
      readOne w p format = .error e →
      (readPathsRun (ps ++ [p]) format w).1 = .error e := by
  intro ps
  induction ps with
  | nil =>
    intro p e _ herr
    cases hx : xopenRead w p with
    | error e' =>
      have he : e' = e := by
        simp only [readOne, hx] at herr
        exact (Except.error.inj herr)
      simp [readPathsRun, hx, he]
    | ok content =>
      have hb : bioParse content format = .error e := by
        simpa only [readOne, hx] using herr
      simp [readPathsRun, hx, hb]
  | cons q ps ih =>
    intro p e h herr
    have hq := h q (by simp)
    cases hx : xopenRead w q with
    | error e' => simp [readOne, hx, Except.isOk, Except.toBool] at hq
    | ok content =>
      cases hb : bioParse content format with
      | error e' => simp [readOne, hx, hb, Except.isOk, Except.toBool] at hq
      | ok recs =>
        have ih' := ih p e (fun q' hq' => h q' (by simp [hq'])) herr
        cases hr : readPathsRun (ps ++ [p]) format w with
        | mk res evs =>
          rw [hr] at ih'
          cases res with
          | error e' =>
            simp only at ih'
            simp [readPathsRun, hx, hb, hr, ih']
          | ok rest => simp at ih'

/-- Claim C8: I/O and format errors raised by the storage layer or the
codec propagate to the caller as exactly the same error value — no retry,
no wrapping or translation, no suppression into a partial result.  Covers a
failing single-path read, a failing path after successfully read paths, an
unwritable destination, and a serializer failure. -/
theorem errors_propagate_unchanged :
    (∀ (p format : String) (w : World) (e : IOErr),
      readOne w p format = .error e →
      ((read_sequences (.single p) format).run w).1 = .error e) ∧
    (∀ (ps : List String) (p format : String) (w : World) (e : IOErr),
      (∀ q ∈ ps, (readOne w q format).isOk = true) →
      readOne w p format = .error e →
      ((read_sequences (.many (ps ++ [p])) format).run w).1 = .error e) ∧
    (∀ (s : SeqInput) (path format : String) (w : World) (e : IOErr),
      isSeqRecord s = false →
      xopenWrite w path = .error e →
      (write_sequences s path format w).1 = .error e) ∧
    (∀ (s : SeqInput) (path format : String) (w : World) (e : IOErr),
      isSeqRecord s = false →
      path ∉ w.unwritable →
      bioWrite s format = .error e →
      (write_sequences s path format w).1 = .error e) := by
  refine ⟨?_, ?_, ?_, ?_⟩
  · intro p format w e herr
    exact readPathsRun_append_error format w [] p e (by simp) herr
  · intro ps p format w e h herr
    exact readPathsRun_append_error format w ps p e h herr
  · intro s path format w e hs hx
    simp [write_sequences, hs, hx]
  · intro s path format w e hs hw hb
    simp [write_sequences, hs, xopenWrite, hw, hb]

/-- Witness for C8 at concrete inputs: a missing path's not-found error, an
unknown format tag's codec error after a successful first path, a
permission error on an unwritable destination, and a serializer error all
surface unchanged. -/
theorem errors_propagate_unchanged_witness :
    (readOne ⟨[], [], []⟩ "gone.fa" "fasta" = .error (.fileNotFound "gone.fa") ∧
      ((read_sequences (.single "gone.fa") "fasta").run ⟨[], [], []⟩).1 =
        .error (.fileNotFound "gone.fa")) ∧
    ((∀ q ∈ ["ok.fa"],
        (readOne ⟨[("ok.fa", [['>', 'x'], ['A']]), ("bad.fa", [['h', 'i']])], [], []⟩
          q "fasta").isOk = true) ∧
      readOne ⟨[("ok.fa", [['>', 'x'], ['A']]), ("bad.fa", [['h', 'i']])], [], []⟩
          "bad.fa" "fasta" =
        .error (.formatError "fasta" "records in FASTA files should start with a > character") ∧
      ((read_sequences (.many (["ok.fa"] ++ ["bad.fa"])) "fasta").run
          ⟨[("ok.fa", [['>', 'x'], ['A']]), ("bad.fa", [['h', 'i']])], [], []⟩).1 =
        .error (.formatError "fasta" "records in FASTA files should start with a > character")) ∧
    (isSeqRecord (.records []) = false ∧
      xopenWrite ⟨[], [], ["ro.fa"]⟩ "ro.fa" = .error (.permissionDenied "ro.fa") ∧
      (write_sequences (.records []) "ro.fa" "fasta" ⟨[], [], ["ro.fa"]⟩).1 =
        .error (.permissionDenied "ro.fa")) ∧
    (isSeqRecord .nonIterable = false ∧
      bioWrite .nonIterable "fasta" = .error (.typeError "sequences argument is not iterable") ∧
      (write_sequences .nonIterable "w.fa" "fasta" ⟨[], [], []⟩).1 =
        .error (.typeError "sequences argument is not iterable")) :=
  ⟨⟨rfl,
      errors_propagate_unchanged.1 "gone.fa" "fasta" ⟨[], [], []⟩ _ rfl⟩,
    ⟨by decide, rfl,
      errors_propagate_unchanged.2.1 ["ok.fa"] "bad.fa" "fasta"
        ⟨[("ok.fa", [['>', 'x'], ['A']]), ("bad.fa", [['h', 'i']])], [], []⟩ _
        (by decide) rfl⟩,
    ⟨rfl, rfl,
      errors_propagate_unchanged.2.2.1 (.records []) "ro.fa" "fasta"
        ⟨[], [], ["ro.fa"]⟩ _ rfl rfl⟩,
    ⟨rfl, rfl,
      errors_propagate_unchanged.2.2.2 .nonIterable "w.fa" "fasta"
        ⟨[], [], []⟩ _ rfl (by decide) rfl⟩⟩

/-- Claim C9 (implicit): calling `read_sequences` builds a suspended
generator and performs no work — the call is the pure constructor of the
generator value, for every argument, valid or not — and for an invalid
input the error is raised only at the first iteration of the returned
stream: a failing `xopen` surfaces its error at the first step with no
stream ever acquired, and a codec rejection (unparseable content or
unrecognized format tag) surfaces at the first step after the one
acquire/release cycle of that path. -/
theorem read_sequences_call_is_lazy :
    (∀ (paths : PathsArg) (format : String),
      read_sequences paths format = { paths := paths, format := format }) ∧
    (∀ (p format : String) (w : World) (e : IOErr),
      xopenRead w p = .error e →
      (read_sequences (.single p) format).firstStep w = (.error e, [])) ∧
    (∀ (p format : String) (w : World) (content : List Line) (e : IOErr),
      xopenRead w p = .ok content →
      bioParse content format = .error e →
      (read_sequences (.single p) format).firstStep w =
        (.error e, [.openRead p, .close p])) := by
  refine ⟨fun _ _ => rfl, ?_, ?_⟩
  · intro p format w e hx
    simp [read_sequences, SeqGen.firstStep, normalizePaths, pathCast, readPathsFirst, hx]
  · intro p format w content e hx hb
    simp [read_sequences, SeqGen.firstStep, normalizePaths, pathCast, readPathsFirst, hx, hb]

/-- Witness for C9 at concrete inputs: a nonexistent path's error and an
unrecognized format tag's error each surface at the first iteration. -/
theorem read_sequences_call_is_lazy_witness :
    xopenRead ⟨[], [], []⟩ "nope.fa" = .error (.fileNotFound "nope.fa") ∧
    (read_sequences (.single "nope.fa") "fasta").firstStep ⟨[], [], []⟩ =
      (.error (.fileNotFound "nope.fa"), []) ∧
    xopenRead ⟨[("a.fa", [['>', 'x'], ['A']])], [], []⟩ "a.fa" = .ok [['>', 'x'], ['A']] ∧
    bioParse [['>', 'x'], ['A']] "genbank" = .error (.valueError "Unknown format genbank") ∧
    (read_sequences (.single "a.fa") "genbank").firstStep
        ⟨[("a.fa", [['>', 'x'], ['A']])], [], []⟩ =
      (.error (.valueError "Unknown format genbank"), [.openRead "a.fa", .close "a.fa"]) :=
  ⟨rfl,
    read_sequences_call_is_lazy.2.1 "nope.fa" "fasta" ⟨[], [], []⟩ _ rfl,
    rfl, rfl,
    read_sequences_call_is_lazy.2.2 "a.fa" "genbank"
      ⟨[("a.fa", [['>', 'x'], ['A']])], [], []⟩ [['>', 'x'], ['A']] _ rfl rfl⟩

/-- Claim C10 (implicit): the eager guard of `write_sequences` rejects
exactly bare instances of the codec's single-record type, and any other
malformed input passes it: a plain string and a non-iterable object reach
the serializer, which fails only after the output stream has been opened
(the trace shows the acquire/release cycle around the failure). -/
theorem write_guard_rejects_exactly_single_record :
    (∀ s : SeqInput, isSeqRecord s = true ↔ ∃ r, s = .record r) ∧
    (∀ (s' : Line) (path : String) (w : World), path ∉ w.unwritable →
      (write_sequences (.str s') path "fasta" w).1 =
          .error (.valueError "sequence objects expected, got a string") ∧
        (write_sequences (.str s') path "fasta" w).2.2 =
          [.openWrite path, .close path]) ∧
    (∀ (path : String) (w : World), path ∉ w.unwritable →
      (write_sequences .nonIterable path "fasta" w).1 =
          .error (.typeError "sequences argument is not iterable") ∧
        (write_sequences .nonIterable path "fasta" w).2.2 =
          [.openWrite path, .close path]) := by
  refine ⟨?_, ?_, ?_⟩
  · intro s
    cases s <;> simp [isSeqRecord]
  · intro s' path w h
    constructor <;> simp [write_sequences, isSeqRecord, xopenWrite, h, bioWrite]
  · intro path w h
    constructor <;> simp [write_sequences, isSeqRecord, xopenWrite, h, bioWrite]

/-- Witness for C10 at concrete inputs: a plain string passes the guard and
fails inside the serializer with the output stream already opened (and the
destination already truncated/created). -/
theorem write_guard_rejects_exactly_single_record_witness :
    isSeqRecord (.str ['h', 'i']) = false ∧
    "w.fa" ∉ (⟨[], [], []⟩ : World).unwritable ∧
    (write_sequences (.str ['h', 'i']) "w.fa" "fasta" ⟨[], [], []⟩).1 =
      .error (.valueError "sequence objects expected, got a string") ∧
    (write_sequences (.str ['h', 'i']) "w.fa" "fasta" ⟨[], [], []⟩).2.2 =
      [.openWrite "w.fa", .close "w.fa"] ∧
    (write_sequences .nonIterable "w.fa" "fasta" ⟨[], [], []⟩).2.2 =
      [.openWrite "w.fa", .close "w.fa"] :=
  ⟨by decide, by decide,
    (write_guard_rejects_exactly_single_record.2.1 ['h', 'i'] "w.fa" ⟨[], [], []⟩
      (by decide)).1,
    (write_guard_rejects_exactly_single_record.2.1 ['h', 'i'] "w.fa" ⟨[], [], []⟩
      (by decide)).2,
    (write_guard_rejects_exactly_single_record.2.2 "w.fa" ⟨[], [], []⟩ (by decide)).2⟩
